import Mathlib

/-!
Verification of the two scaffolding scripts of this repository
(`oauth.py` and `p.py`).  Both scripts do nothing but create directories
(`os.makedirs(path, exist_ok=True)`) and files (`open(path, 'w')` followed
by writing the — always empty — content), over a hardcoded tree of paths,
and finish with a single `print` of a success message.  Neither script
contains any `try`/`except`: an `OSError` raised by any operation
propagates, aborts the run at that point, and skips the final `print`.

The filesystem is modelled by three fields: which paths are directories,
the optional content of each file path, and which directories are
read-only (creating a new entry inside a read-only directory fails).
Paths are lists of components, mirroring `os.path.join` on the string
paths of the scripts.
-/

namespace Scaffold

abbrev Path := List String

/-- A filesystem state: which paths are directories, what content (if any)
each file path holds, and which directories refuse creation of new
entries (`ro` = the process lacks write permission inside them). -/
@[ext]
structure FS where
  isDir : Path → Bool
  content : Path → Option String
  ro : Path → Bool

/-- `parent p` drops the last component, as `os.path.dirname` does. -/
def parent (p : Path) : Path := p.dropLast

/-- The parent either is the root (current working directory) or is an
existing directory.  `open(path, 'w')` demands this of `dirname path`. -/
def isDirR (fs : FS) (q : Path) : Bool := q.isEmpty || fs.isDir q

def prefixesAux (acc : Path) : Path → List Path
  | [] => []
  | a :: rest => (acc ++ [a]) :: prefixesAux (acc ++ [a]) rest

/-- All nonempty prefixes of a path, shortest first: the chain of
directories `os.makedirs` ensures, in the order it ensures them. -/
def prefixes (p : Path) : List Path := prefixesAux [] p

/-- One `mkdir` step of `os.makedirs(..., exist_ok=True)`: an existing
directory is accepted silently; a path occupied by a file, or a missing
path inside a read-only parent, raises; otherwise the directory is
created.  The Boolean records success. -/
def mkdirOne (fs : FS) (q : Path) : FS × Bool :=
  if fs.isDir q then (fs, true)
  else if (fs.content q).isSome then (fs, false)
  else if fs.ro (parent q) then (fs, false)
  else ({ fs with isDir := fun r => if r = q then true else fs.isDir r }, true)

/-- Ensure a chain of directories in order, stopping at the first failure.
Directories created before the failure stay created, exactly as the
ancestors `os.makedirs` has already created stay on disk. -/
def mkdirList : FS → List Path → FS × Bool
  | fs, [] => (fs, true)
  | fs, q :: rest =>
    let r := mkdirOne fs q
    if r.2 then mkdirList r.1 rest else (r.1, false)

/-- `os.makedirs(p, exist_ok=True)`: ensure every prefix of `p`. -/
def makedirs (fs : FS) (p : Path) : FS × Bool := mkdirList fs (prefixes p)

/-- `open(p, 'w')` + `write c` + close: fails when the parent directory is
missing, when `p` is itself a directory, or when `p` does not exist and
its parent is read-only; otherwise creates or truncates `p` so that it
holds exactly `c`. -/
def createFile (fs : FS) (p : Path) (c : String) : FS × Bool :=
  if isDirR fs (parent p) = false then (fs, false)
  else if fs.isDir p then (fs, false)
  else if (fs.content p).isNone && fs.ro (parent p) then (fs, false)
  else ({ fs with content := fun r => if r = p then some c else fs.content r }, true)

/-- The two filesystem operations the scripts perform. -/
inductive Op where
  | mkdir : Path → Op
  | mkfile : Path → String → Op
deriving DecidableEq

def runOp (fs : FS) : Op → FS × Bool
  | .mkdir p => makedirs fs p
  | .mkfile p c => createFile fs p c

/-- Run a list of operations in order; the first failure aborts the rest
(the scripts have no `try`/`except`, so the exception propagates). -/
def runOps : FS → List Op → FS × Bool
  | fs, [] => (fs, true)
  | fs, o :: rest =>
    let r := runOp fs o
    if r.2 then runOps r.1 rest else (r.1, false)

/-- A script statement: an operation or a `print`. -/
inductive Stmt where
  | op : Op → Stmt
  | print : String → Stmt
deriving DecidableEq

/-- Result of a run: final filesystem, console output, and whether the
script ran to completion (no uncaught exception). -/
structure RunResult where
  fs : FS
  out : List String
  ok : Bool

/-- Run a script top to bottom; an operation failure aborts everything
after it, including any later `print`. -/
def runScript : FS → List Stmt → RunResult
  | fs, [] => ⟨fs, [], true⟩
  | fs, .print s :: rest =>
    let r := runScript fs rest
    ⟨r.fs, s :: r.out, r.ok⟩
  | fs, .op o :: rest =>
    let r := runOp fs o
    if r.2 then runScript r.1 rest else ⟨r.1, [], false⟩

/-! ### The two concrete scripts, transcribed from the source -/

/-- `base_path = "apps/web/modules/s3-storage-module"` of `oauth.py`. -/
def oauthBase : Path := ["apps", "web", "modules", "s3-storage-module"]

/-- The operations of the module body of `oauth.py`, in program order. -/
def oauthOps : List Op := [
  .mkdir oauthBase,
  .mkfile (oauthBase ++ ["package.json"]) "",
  .mkfile (oauthBase ++ ["manifest.json"]) "",
  .mkfile (oauthBase ++ ["index.js"]) "",
  .mkfile (oauthBase ++ ["install.js"]) "",
  .mkfile (oauthBase ++ ["uninstall.js"]) "",
  .mkfile (oauthBase ++ ["README.md"]) "",
  .mkfile (oauthBase ++ ["icon.png"]) "",
  .mkfile (oauthBase ++ ["screenshot1.png"]) "",
  .mkfile (oauthBase ++ ["screenshot2.png"]) "",
  .mkdir (oauthBase ++ ["config"]),
  .mkfile (oauthBase ++ ["config", "providers.json"]) "",
  .mkfile (oauthBase ++ ["config", "defaults.json"]) "",
  .mkdir (oauthBase ++ ["services"]),
  .mkfile (oauthBase ++ ["services", "s3-storage-service.js"]) "",
  .mkfile (oauthBase ++ ["services", "provider-factory.js"]) "",
  .mkfile (oauthBase ++ ["services", "file-manager.js"]) "",
  .mkfile (oauthBase ++ ["services", "url-service.js"]) "",
  .mkdir (oauthBase ++ ["providers"]),
  .mkfile (oauthBase ++ ["providers", "aws-s3.js"]) "",
  .mkfile (oauthBase ++ ["providers", "vultr-storage.js"]) "",
  .mkfile (oauthBase ++ ["providers", "cloudflare-r2.js"]) "",
  .mkfile (oauthBase ++ ["providers", "digitalocean-spaces.js"]) "",
  .mkfile (oauthBase ++ ["providers", "linode-storage.js"]) "",
  .mkfile (oauthBase ++ ["providers", "base-provider.js"]) "",
  .mkdir (oauthBase ++ ["utils"]),
  .mkfile (oauthBase ++ ["utils", "validators.js"]) "",
  .mkfile (oauthBase ++ ["utils", "file-utils.js"]) "",
  .mkfile (oauthBase ++ ["utils", "mime-helper.js"]) "",
  .mkfile (oauthBase ++ ["utils", "error-handler.js"]) "",
  .mkdir (oauthBase ++ ["middleware"]),
  .mkfile (oauthBase ++ ["middleware", "storage-interceptor.js"]) "",
  .mkfile (oauthBase ++ ["middleware", "upload-handler.js"]) "",
  .mkdir (oauthBase ++ ["admin"]),
  .mkfile (oauthBase ++ ["admin", "settings-panel.js"]) "",
  .mkfile (oauthBase ++ ["admin", "storage-stats.js"]) "",
  .mkfile (oauthBase ++ ["admin", "migration-tool.js"]) "",
  .mkfile (oauthBase ++ ["admin", "test-connection.js"]) "",
  .mkdir (oauthBase ++ ["api"]),
  .mkfile (oauthBase ++ ["api", "upload.js"]) "",
  .mkfile (oauthBase ++ ["api", "delete.js"]) "",
  .mkfile (oauthBase ++ ["api", "migrate.js"]) "",
  .mkfile (oauthBase ++ ["api", "test-connection.js"]) "",
  .mkfile (oauthBase ++ ["api", "settings.js"]) "",
  .mkdir (oauthBase ++ ["hooks"]),
  .mkfile (oauthBase ++ ["hooks", "media-upload.js"]) "",
  .mkfile (oauthBase ++ ["hooks", "media-delete.js"]) "",
  .mkfile (oauthBase ++ ["hooks", "url-generation.js"]) ""
]

def oauthMsg : String :=
  "Folder structure and empty files created successfully at apps/web/modules/s3-storage-module"

/-- The whole of `oauth.py`: the operations, then the final `print`. -/
def oauthScript : List Stmt := oauthOps.map Stmt.op ++ [Stmt.print oauthMsg]

/-- The default `base_path = "plugins/analytics-plugin"` of `p.py`. -/
def pluginBase : Path := ["plugins", "analytics-plugin"]

/-- The operations of `create_analytics_plugin_structure` in `p.py`, in
program order: the base directory, the `folders` loop, then the `files`
loop (Python dictionaries iterate in insertion order). -/
def pluginOps : List Op := [
  .mkdir pluginBase,
  .mkdir (pluginBase ++ ["src"]),
  .mkdir (pluginBase ++ ["src", "components"]),
  .mkdir (pluginBase ++ ["src", "services"]),
  .mkdir (pluginBase ++ ["src", "types"]),
  .mkfile (pluginBase ++ ["package.json"]) "",
  .mkfile (pluginBase ++ ["plugin.config.json"]) "",
  .mkfile (pluginBase ++ ["src", "index.ts"]) "",
  .mkfile (pluginBase ++ ["src", "components", "AnalyticsDashboard.tsx"]) "",
  .mkfile (pluginBase ++ ["src", "components", "AnalyticsSettings.tsx"]) "",
  .mkfile (pluginBase ++ ["src", "components", "AnalyticsWidget.tsx"]) "",
  .mkfile (pluginBase ++ ["src", "services", "tracker.ts"]) "",
  .mkfile (pluginBase ++ ["src", "services", "aggregator.ts"]) "",
  .mkfile (pluginBase ++ ["src", "services", "reports.ts"]) "",
  .mkfile (pluginBase ++ ["src", "types", "analytics.ts"]) ""
]

def pluginMsg : String :=
  "Analytics plugin structure created successfully at plugins/analytics-plugin"

/-- The run of `p.py` as a script: `create_analytics_plugin_structure()`
with its default base path, then the final `print`. -/
def pluginScript : List Stmt := pluginOps.map Stmt.op ++ [Stmt.print pluginMsg]

/-! ### Static views of an operation list -/

/-- Every directory path some `mkdir` of the list ensures (the targets
together with all their ancestors). -/
def dirPrefixes (ops : List Op) : List Path :=
  ops.flatMap fun o => match o with
    | .mkdir p => prefixes p
    | .mkfile _ _ => []

/-- The file paths the list writes. -/
def fileTargets (ops : List Op) : List Path :=
  ops.filterMap fun o => match o with
    | .mkfile p _ => some p
    | .mkdir _ => none

/-- Every path an operation of the list can touch at all. -/
def touched (ops : List Op) : List Path := dirPrefixes ops ++ fileTargets ops

/-- The literal targets of the operations (no ancestors added): the
entries the script declares under its base path. -/
def opTargets (ops : List Op) : List Path :=
  ops.map fun o => match o with
    | .mkdir p => p
    | .mkfile p _ => p

/-- Every file the list writes is written with empty content. -/
def allEmpty (ops : List Op) : Bool :=
  ops.all fun o => match o with
    | .mkfile _ c => c == ""
    | .mkdir _ => true

/-- Some filesystem states used as concrete test inputs. -/
def fsEmpty : FS := ⟨fun _ => false, fun _ => none, fun _ => false⟩

/-- A filesystem whose root (the current working directory) is read-only:
the process lacks write permission at the base location. -/
def fsRoRoot : FS := ⟨fun _ => false, fun _ => none, fun p => p.isEmpty⟩

/-- Did some operation before index `i` ensure the directory `q`? -/
def dirMadeBefore (ops : List Op) (i : Nat) (q : Path) : Bool :=
  (ops.take i).any fun o => match o with
    | .mkdir d => (prefixes d).contains q
    | .mkfile _ _ => false

/-- Every file write of the list comes after a `mkdir` call covering its
parent directory. -/
def filesAfterDirs (ops : List Op) : Bool :=
  (List.range ops.length).all fun i => match ops.get? i with
    | some (.mkfile p _) => dirMadeBefore ops i (parent p)
    | _ => true

/-- Accumulator form of the same ordering discipline: given the
directories already ensured by earlier `mkdir` calls, every file write
finds its parent among them (or writes directly into the root). -/
def wfFrom : List Path → List Op → Bool
  | _, [] => true
  | avail, .mkdir p :: rest => wfFrom (prefixes p ++ avail) rest
  | avail, .mkfile p _ :: rest =>
    (avail.contains (parent p) || (parent p).isEmpty) && wfFrom avail rest

/-- Execution of a script as a relation, used to state determinism: it
mirrors `runScript` step by step. -/
inductive Exec : FS → List Stmt → RunResult → Prop where
  | done : ∀ fs, Exec fs [] ⟨fs, [], true⟩
  | msg : ∀ fs s rest r, Exec fs rest r →
      Exec fs (.print s :: rest) ⟨r.fs, s :: r.out, r.ok⟩
  | step : ∀ fs o rest fs' r, runOp fs o = (fs', true) → Exec fs' rest r →
      Exec fs (.op o :: rest) r
  | halt : ∀ fs o rest fs', runOp fs o = (fs', false) →
      Exec fs (.op o :: rest) ⟨fs', [], false⟩

/-- Concrete state for the partial-failure scenario on `p.py`: every
directory of the tree already exists, and `src/components` is read-only,
so exactly the write of `AnalyticsDashboard.tsx` fails. -/
def fsOneBlocked : FS :=
  ⟨fun p => (dirPrefixes pluginOps).contains p,
   fun _ => none,
   fun p => p == pluginBase ++ ["src", "components"]⟩

/-- Concrete state with an ordinary file named `apps` in the working
directory: the very first `os.makedirs` call of `oauth.py` raises. -/
def fsFileApps : FS :=
  ⟨fun _ => false,
   fun p => if p = ["apps"] then some "x" else none,
   fun _ => false⟩

/-- Concrete state with a directory where `oauth.py` declares the file
`README.md`: parent exists and is writable, yet `open(..., 'w')` fails. -/
def fsDirReadme : FS :=
  ⟨fun p => (prefixes (oauthBase ++ ["README.md"])).contains p,
   fun _ => none,
   fun _ => false⟩

/-! ### Lemmas about a single directory step -/

theorem mkdirOne_content (fs : FS) (q : Path) :
    (mkdirOne fs q).1.content = fs.content := by
  unfold mkdirOne; split_ifs <;> rfl

theorem mkdirOne_ro (fs : FS) (q : Path) :
    (mkdirOne fs q).1.ro = fs.ro := by
  unfold mkdirOne; split_ifs <;> rfl

theorem mkdirOne_fail {fs : FS} {q : Path} (h : (mkdirOne fs q).2 = false) :
    (mkdirOne fs q).1 = fs := by
  unfold mkdirOne at *; split_ifs at h ⊢ <;> simp_all

theorem mkdirOne_mono {fs : FS} {r : Path} (q : Path) (h : fs.isDir r = true) :
    (mkdirOne fs q).1.isDir r = true := by
  unfold mkdirOne; split_ifs <;> simp [h]

theorem mkdirOne_target {fs : FS} {q : Path} (h : (mkdirOne fs q).2 = true) :
    (mkdirOne fs q).1.isDir q = true := by
  unfold mkdirOne at *; split_ifs at h ⊢ <;> simp_all

theorem mkdirOne_frame {fs : FS} {q r : Path} (h : r ≠ q) :
    (mkdirOne fs q).1.isDir r = fs.isDir r := by
  unfold mkdirOne; split_ifs <;> simp [h]

theorem mkdirOne_exists {fs : FS} {q : Path} (h : fs.isDir q = true) :
    mkdirOne fs q = (fs, true) := by
  unfold mkdirOne; simp [h]

theorem mkdirOne_occupied {fs : FS} {q p : Path}
    (h : (fs.content p).isSome = true) :
    (mkdirOne fs q).1.isDir p = fs.isDir p := by
  by_cases hpq : p = q
  · subst hpq
    unfold mkdirOne; split_ifs <;> simp_all
  · exact mkdirOne_frame hpq

theorem mkdirOne_succ {fs : FS} {q : Path}
    (h : fs.isDir q = true ∨ (fs.content q = none ∧ fs.ro (parent q) = false)) :
    (mkdirOne fs q).2 = true := by
  unfold mkdirOne; split_ifs with h1 h2 h3 <;> simp_all

/-! ### Lemmas about a chain of directory steps -/

theorem mkdirList_content (fs : FS) (qs : List Path) :
    (mkdirList fs qs).1.content = fs.content := by
  induction qs generalizing fs with
  | nil => rfl
  | cons q rest ih =>
    unfold mkdirList; dsimp only
    split
    · rw [ih, mkdirOne_content]
    · rw [mkdirOne_content]

theorem mkdirList_ro (fs : FS) (qs : List Path) :
    (mkdirList fs qs).1.ro = fs.ro := by
  induction qs generalizing fs with
  | nil => rfl
  | cons q rest ih =>
    unfold mkdirList; dsimp only
    split
    · rw [ih, mkdirOne_ro]
    · rw [mkdirOne_ro]

theorem mkdirList_mono {fs : FS} {r : Path} (qs : List Path)
    (h : fs.isDir r = true) :
    (mkdirList fs qs).1.isDir r = true := by
  induction qs generalizing fs with
  | nil => exact h
  | cons q rest ih =>
    unfold mkdirList; dsimp only
    split
    · exact ih (mkdirOne_mono q h)
    · exact mkdirOne_mono q h

theorem mkdirList_frame {fs : FS} {r : Path} {qs : List Path} (h : r ∉ qs) :
    (mkdirList fs qs).1.isDir r = fs.isDir r := by
  induction qs generalizing fs with
  | nil => rfl
  | cons q rest ih =>
    unfold mkdirList; dsimp only
    have hq : r ≠ q := fun hc => h (hc ▸ List.mem_cons_self q rest)
    have hr : r ∉ rest := fun hc => h (List.mem_cons_of_mem q hc)
    split
    · rw [ih hr, mkdirOne_frame hq]
    · rw [mkdirOne_frame hq]

theorem mkdirList_occupied {fs : FS} {p : Path} (qs : List Path)
    (h : (fs.content p).isSome = true) :
    (mkdirList fs qs).1.isDir p = fs.isDir p := by
  induction qs generalizing fs with
  | nil => rfl
  | cons q rest ih =>
    unfold mkdirList; dsimp only
    have hc : ((mkdirOne fs q).1.content p).isSome = true := by
      rw [mkdirOne_content]; exact h
    split
    · rw [ih hc, mkdirOne_occupied h]
    · exact mkdirOne_occupied h

theorem mkdirList_all {fs : FS} {qs : List Path}
    (h : (mkdirList fs qs).2 = true) :
    ∀ q ∈ qs, (mkdirList fs qs).1.isDir q = true := by
  induction qs generalizing fs with
  | nil => intro q hq; cases hq
  | cons q rest ih =>
    intro r hr
    unfold mkdirList at h ⊢; dsimp only at h ⊢
    by_cases hs : (mkdirOne fs q).2 = true
    · rw [if_pos hs] at h ⊢
      rcases List.mem_cons.mp hr with h1 | h1
      · subst h1; exact mkdirList_mono rest (mkdirOne_target hs)
      · exact ih h r h1
    · rw [if_neg hs] at h; cases h

theorem mkdirList_id {fs : FS} {qs : List Path}
    (h : ∀ q ∈ qs, fs.isDir q = true) :
    mkdirList fs qs = (fs, true) := by
  induction qs with
  | nil => rfl
  | cons q rest ih =>
    unfold mkdirList; dsimp only
    rw [mkdirOne_exists (h q (List.mem_cons_self q rest))]
    exact ih fun r hr => h r (List.mem_cons_of_mem q hr)

theorem mkdirList_succ {fs : FS} {qs : List Path}
    (h : ∀ q ∈ qs, fs.isDir q = true ∨
      (fs.content q = none ∧ fs.ro (parent q) = false)) :
    (mkdirList fs qs).2 = true := by
  induction qs generalizing fs with
  | nil => rfl
  | cons q rest ih =>
    unfold mkdirList; dsimp only
    have hs : (mkdirOne fs q).2 = true :=
      mkdirOne_succ (h q (List.mem_cons_self q rest))
    rw [if_pos hs]
    refine ih fun r hr => ?_
    rcases h r (List.mem_cons_of_mem q hr) with h1 | h1
    · exact Or.inl (mkdirOne_mono q h1)
    · refine Or.inr ⟨?_, ?_⟩
      · rw [mkdirOne_content]; exact h1.1
      · rw [mkdirOne_ro]; exact h1.2

/-! ### Lemmas about file creation -/

theorem createFile_isDir (fs : FS) (p : Path) (c : String) :
    (createFile fs p c).1.isDir = fs.isDir := by
  unfold createFile; split_ifs <;> rfl

theorem createFile_ro (fs : FS) (p : Path) (c : String) :
    (createFile fs p c).1.ro = fs.ro := by
  unfold createFile; split_ifs <;> rfl

theorem createFile_fail {fs : FS} {p : Path} {c : String}
    (h : (createFile fs p c).2 = false) :
    (createFile fs p c).1 = fs := by
  unfold createFile at *; split_ifs at h ⊢ <;> simp_all

theorem createFile_frame {fs : FS} {p r : Path} (c : String) (h : r ≠ p) :
    (createFile fs p c).1.content r = fs.content r := by
  unfold createFile; split_ifs <;> simp [h]

theorem createFile_ok {fs : FS} {p : Path} (c : String)
    (h1 : isDirR fs (parent p) = true) (h2 : fs.isDir p = false)
    (h3 : fs.ro (parent p) = false) :
    createFile fs p c =
      ({ fs with content := fun r => if r = p then some c else fs.content r },
        true) := by
  unfold createFile; split_ifs <;> simp_all

theorem createFile_succ_content {fs : FS} {p : Path} {c : String}
    (h : (createFile fs p c).2 = true) :
    (createFile fs p c).1.content p = some c := by
  unfold createFile at *
  split_ifs at h ⊢
  simp_all

theorem createFile_pre {fs : FS} {p : Path} {c : String}
    (h : (createFile fs p c).2 = true) :
    isDirR fs (parent p) = true ∧ fs.isDir p = false := by
  unfold createFile at h
  split_ifs at h with h1 h2 h3
  simp_all

theorem createFile_id {fs : FS} {p : Path} {c : String}
    (h1 : isDirR fs (parent p) = true) (h2 : fs.isDir p = false)
    (h : fs.content p = some c) :
    createFile fs p c = (fs, true) := by
  unfold createFile
  split_ifs with g1 g2 g3
  · rw [h1] at g1; cases g1
  · rw [h2] at g2; cases g2
  · rw [h] at g3; simp at g3
  · refine Prod.ext ?_ rfl
    refine FS.ext rfl ?_ rfl
    funext r
    by_cases hr : r = p
    · subst hr; simp [h]
    · simp [hr]

/-! ### Lemmas about running an operation list -/

theorem runOps_ro (fs : FS) (ops : List Op) :
    (runOps fs ops).1.ro = fs.ro := by
  induction ops generalizing fs with
  | nil => rfl
  | cons o rest ih =>
    unfold runOps; dsimp only
    split
    · rw [ih]
      cases o with
      | mkdir p => exact mkdirList_ro fs (prefixes p)
      | mkfile p c => exact createFile_ro fs p c
    · cases o with
      | mkdir p => exact mkdirList_ro fs (prefixes p)
      | mkfile p c => exact createFile_ro fs p c

theorem runOp_mono {fs : FS} {r : Path} (o : Op) (h : fs.isDir r = true) :
    (runOp fs o).1.isDir r = true := by
  cases o with
  | mkdir p => exact mkdirList_mono (prefixes p) h
  | mkfile p c => rw [runOp, createFile_isDir]; exact h

theorem runOps_mono {fs : FS} {r : Path} (ops : List Op)
    (h : fs.isDir r = true) :
    (runOps fs ops).1.isDir r = true := by
  induction ops generalizing fs with
  | nil => exact h
  | cons o rest ih =>
    unfold runOps; dsimp only
    split
    · exact ih (runOp_mono o h)
    · exact runOp_mono o h

theorem runOps_isDir_frame {fs : FS} {r : Path} {ops : List Op}
    (h : r ∉ dirPrefixes ops) :
    (runOps fs ops).1.isDir r = fs.isDir r := by
  induction ops generalizing fs with
  | nil => rfl
  | cons o rest ih =>
    have hrest : r ∉ dirPrefixes rest := by
      intro hc; exact h (by simp [dirPrefixes] at hc ⊢; exact Or.inr hc)
    have hop : (runOp fs o).1.isDir r = fs.isDir r := by
      cases o with
      | mkdir p =>
        refine mkdirList_frame fun hc => h ?_
        simp [dirPrefixes]; exact Or.inl hc
      | mkfile p c => rw [runOp, createFile_isDir]
    unfold runOps; dsimp only
    split
    · rw [ih hrest, hop]
    · exact hop

theorem runOps_content_frame {fs : FS} {p : Path} {ops : List Op}
    (h : p ∉ fileTargets ops) :
    (runOps fs ops).1.content p = fs.content p := by
  induction ops generalizing fs with
  | nil => rfl
  | cons o rest ih =>
    have hrest : p ∉ fileTargets rest := by
      intro hc
      apply h
      cases o <;> simp [fileTargets] at hc ⊢ <;> try exact hc
      exact Or.inr hc
    have hop : (runOp fs o).1.content p = fs.content p := by
      cases o with
      | mkdir q => exact congrFun (mkdirList_content fs (prefixes q)) p
      | mkfile q c =>
        refine createFile_frame c fun hc => h ?_
        simp [fileTargets, hc]
    unfold runOps; dsimp only
    split
    · rw [ih hrest, hop]
    · exact hop

theorem runOps_occupied {fs : FS} {p : Path} (ops : List Op)
    (h : (fs.content p).isSome = true) :
    (runOps fs ops).1.isDir p = fs.isDir p ∧
      ((runOps fs ops).1.content p).isSome = true := by
  induction ops generalizing fs with
  | nil => exact ⟨rfl, h⟩
  | cons o rest ih =>
    have hop : (runOp fs o).1.isDir p = fs.isDir p ∧
        ((runOp fs o).1.content p).isSome = true := by
      cases o with
      | mkdir q =>
        refine ⟨mkdirList_occupied (prefixes q) h, ?_⟩
        show ((mkdirList fs (prefixes q)).1.content p).isSome = true
        rw [congrFun (mkdirList_content fs (prefixes q)) p]; exact h
      | mkfile q c =>
        rw [runOp, createFile_isDir]
        refine ⟨rfl, ?_⟩
        by_cases hq : p = q
        · subst hq
          unfold createFile; split_ifs <;> simp_all
        · rw [createFile_frame c hq]; exact h
    unfold runOps; dsimp only
    split
    · rcases ih hop.2 with ⟨ha, hb⟩
      exact ⟨ha.trans hop.1, hb⟩
    · exact hop

theorem runOps_keep_empty {fs : FS} {p : Path} {ops : List Op}
    (hA : allEmpty ops = true) (h : fs.content p = some "") :
    (runOps fs ops).1.content p = some "" := by
  induction ops generalizing fs with
  | nil => exact h
  | cons o rest ih =>
    have hArest : allEmpty rest = true := by
      simp [allEmpty] at hA ⊢
      intro o' ho'; exact hA.2 o' ho'
    have hop : (runOp fs o).1.content p = some "" := by
      cases o with
      | mkdir q =>
        show (mkdirList fs (prefixes q)).1.content p = some ""
        rw [congrFun (mkdirList_content fs (prefixes q)) p]; exact h
      | mkfile q c =>
        have hc : c = "" := by
          simp [allEmpty] at hA; exact hA.1
        subst hc
        show (createFile fs q "").1.content p = some ""
        by_cases hq : p = q
        · subst hq
          unfold createFile; split_ifs <;> simp_all
        · rw [createFile_frame "" hq]; exact h
    unfold runOps; dsimp only
    split
    · exact ih hArest hop
    · exact hop

/-! ### Unfolding equations and the shape of the scripts -/

theorem mkdirList_cons (fs : FS) (q : Path) (rest : List Path) :
    mkdirList fs (q :: rest) =
      if (mkdirOne fs q).2 then mkdirList (mkdirOne fs q).1 rest
      else ((mkdirOne fs q).1, false) := rfl

theorem runOps_cons (fs : FS) (o : Op) (rest : List Op) :
    runOps fs (o :: rest) =
      if (runOp fs o).2 then runOps (runOp fs o).1 rest
      else ((runOp fs o).1, false) := rfl

theorem runScript_cons_op (fs : FS) (o : Op) (rest : List Stmt) :
    runScript fs (.op o :: rest) =
      if (runOp fs o).2 then runScript (runOp fs o).1 rest
      else ⟨(runOp fs o).1, [], false⟩ := rfl

theorem runScript_eq (fs : FS) (ops : List Op) (m : String) :
    runScript fs (ops.map Stmt.op ++ [Stmt.print m]) =
      ⟨(runOps fs ops).1, if (runOps fs ops).2 then [m] else [],
        (runOps fs ops).2⟩ := by
  induction ops generalizing fs with
  | nil => rfl
  | cons o rest ih =>
    rw [List.map_cons, List.cons_append, runScript_cons_op, runOps_cons]
    by_cases hs : (runOp fs o).2 = true
    · rw [if_pos hs, if_pos hs]; exact ih (runOp fs o).1
    · rw [if_neg hs, if_neg hs]; rfl

/-! ### Replaying a run is the identity (idempotence) -/

theorem mkdirList_replay (fs : FS) (qs : List Path) :
    mkdirList (mkdirList fs qs).1 qs = mkdirList fs qs := by
  induction qs generalizing fs with
  | nil => rfl
  | cons q rest ih =>
    by_cases hs : (mkdirOne fs q).2 = true
    · have h1 : mkdirList fs (q :: rest) = mkdirList (mkdirOne fs q).1 rest := by
        rw [mkdirList_cons, if_pos hs]
      have htgt : (mkdirList (mkdirOne fs q).1 rest).1.isDir q = true :=
        mkdirList_mono rest (mkdirOne_target hs)
      rw [h1, mkdirList_cons, mkdirOne_exists htgt]
      exact ih (mkdirOne fs q).1
    · have hs' : (mkdirOne fs q).2 = false := by
        cases h : (mkdirOne fs q).2
        · rfl
        · exact absurd h hs
      have h1 : mkdirList fs (q :: rest) = (fs, false) := by
        rw [mkdirList_cons, if_neg hs, mkdirOne_fail hs']
      rw [h1]
      exact h1

theorem createFile_replay (fs : FS) (p : Path) (c : String) :
    createFile (createFile fs p c).1 p c = createFile fs p c := by
  by_cases hs : (createFile fs p c).2 = true
  · rcases createFile_pre hs with ⟨h1, h2⟩
    have hc : (createFile fs p c).1.content p = some c :=
      createFile_succ_content hs
    have h1' : isDirR (createFile fs p c).1 (parent p) = true := by
      unfold isDirR at h1 ⊢; rw [createFile_isDir]; exact h1
    have h2' : (createFile fs p c).1.isDir p = false := by
      rw [createFile_isDir]; exact h2
    rw [createFile_id h1' h2' hc]
    cases h : createFile fs p c with
    | mk a b =>
      rw [h] at hs
      have hb : b = true := hs
      subst hb
      rfl
  · have hs' : (createFile fs p c).2 = false := by
      cases h : (createFile fs p c).2
      · rfl
      · exact absurd h hs
    rw [createFile_fail hs']

theorem runOp_replay (fs : FS) (o : Op) :
    runOp (runOp fs o).1 o = runOp fs o := by
  cases o with
  | mkdir p => exact mkdirList_replay fs (prefixes p)
  | mkfile p c => exact createFile_replay fs p c

theorem runOp_stable {fs fs' : FS} {o : Op} {ops : List Op}
    (hA : allEmpty (o :: ops) = true)
    (h : runOp fs o = (fs', true)) :
    runOp (runOps fs' ops).1 o = ((runOps fs' ops).1, true) := by
  cases o with
  | mkdir p =>
    have h' : mkdirList fs (prefixes p) = (fs', true) := h
    have hsucc : (mkdirList fs (prefixes p)).2 = true := by rw [h']
    have hall : ∀ q ∈ prefixes p, fs'.isDir q = true := by
      intro q hq
      have h2 := mkdirList_all hsucc q hq
      rw [h'] at h2
      exact h2
    exact mkdirList_id fun q hq => runOps_mono ops (hall q hq)
  | mkfile p c =>
    have hc : c = "" := by
      simp only [allEmpty, List.all_cons, Bool.and_eq_true] at hA
      have h0 := hA.1
      simpa using h0
    subst hc
    have h' : createFile fs p "" = (fs', true) := h
    have hsucc : (createFile fs p "").2 = true := by rw [h']
    rcases createFile_pre hsucc with ⟨h1, h2⟩
    have hcont : fs'.content p = some "" := by
      have h0 := createFile_succ_content hsucc
      rw [h'] at h0; exact h0
    have hArest : allEmpty ops = true := by
      simp only [allEmpty, List.all_cons, Bool.and_eq_true] at hA ⊢
      exact hA.2
    have hcont' : (runOps fs' ops).1.content p = some "" :=
      runOps_keep_empty hArest hcont
    have hi : fs'.isDir = fs.isDir := by
      have h0 := createFile_isDir fs p ""
      rw [h'] at h0; exact h0
    have hdir : fs'.isDir p = false := by
      rw [congrFun hi p]; exact h2
    have hdir' : (runOps fs' ops).1.isDir p = false := by
      have hocc : (fs'.content p).isSome = true := by rw [hcont]; rfl
      rw [(runOps_occupied ops hocc).1]; exact hdir
    have hpar : isDirR (runOps fs' ops).1 (parent p) = true := by
      unfold isDirR at h1 ⊢
      rcases Bool.or_eq_true_iff.mp h1 with he | hd
      · rw [he]; rfl
      · have hd' : fs'.isDir (parent p) = true := by
          rw [congrFun hi (parent p)]; exact hd
        rw [runOps_mono ops hd']
        exact Bool.or_true _
    exact createFile_id hpar hdir' hcont'

theorem runOps_replay {ops : List Op} (hA : allEmpty ops = true) (fs : FS) :
    runOps (runOps fs ops).1 ops = runOps fs ops := by
  induction ops generalizing fs with
  | nil => rfl
  | cons o rest ih =>
    have hArest : allEmpty rest = true := by
      simp [allEmpty] at hA ⊢
      intro o' ho'; exact hA.2 o' ho'
    by_cases hs : (runOp fs o).2 = true
    · cases hro : runOp fs o with
      | mk fs' b =>
        rw [hro] at hs
        have hb : b = true := hs
        subst hb
        have h1 : runOps fs (o :: rest) = runOps fs' rest := by
          rw [runOps_cons, hro]
          rfl
        rw [h1]
        show runOps (runOps fs' rest).1 (o :: rest) = runOps fs' rest
        rw [runOps_cons, runOp_stable hA hro]
        exact ih hArest fs'
    · have hs' : (runOp fs o).2 = false := by
        cases h : (runOp fs o).2
        · rfl
        · exact absurd h hs
      have h1 : runOps fs (o :: rest) = ((runOp fs o).1, false) := by
        rw [runOps_cons, if_neg hs]
      rw [h1]
      show runOps (runOp fs o).1 (o :: rest) = ((runOp fs o).1, false)
      rw [runOps_cons, runOp_replay, if_neg hs]

/-! ### A well-ordered run over a writable, unobstructed tree succeeds -/

theorem dirPrefixes_cons_mkdir (d : Path) (rest : List Op) :
    dirPrefixes (.mkdir d :: rest) = prefixes d ++ dirPrefixes rest := rfl

theorem dirPrefixes_cons_mkfile (p : Path) (c : String) (rest : List Op) :
    dirPrefixes (.mkfile p c :: rest) = dirPrefixes rest := rfl

theorem fileTargets_cons_mkdir (d : Path) (rest : List Op) :
    fileTargets (.mkdir d :: rest) = fileTargets rest := rfl

theorem fileTargets_cons_mkfile (p : Path) (c : String) (rest : List Op) :
    fileTargets (.mkfile p c :: rest) = p :: fileTargets rest := rfl

theorem runOps_ok (ops : List Op) : ∀ (fs : FS) (avail : List Path),
    (∀ p, fs.ro p = false) →
    (∀ q ∈ avail, fs.isDir q = true) →
    wfFrom avail ops = true →
    (∀ q ∈ dirPrefixes ops, fs.content q = none) →
    (∀ p ∈ fileTargets ops, fs.isDir p = false) →
    (∀ p ∈ fileTargets ops, p ∉ dirPrefixes ops) →
    (runOps fs ops).2 = true := by
  induction ops with
  | nil => intro fs avail _ _ _ _ _ _; rfl
  | cons o rest ih =>
    intro fs avail hro havail hwf hdir hfile hdisj
    cases o with
    | mkdir d =>
      rw [runOps_cons]
      have hsucc : (runOp fs (Op.mkdir d)).2 = true := by
        show (mkdirList fs (prefixes d)).2 = true
        refine mkdirList_succ fun q hq => Or.inr ⟨?_, hro (parent q)⟩
        exact hdir q
          (by rw [dirPrefixes_cons_mkdir]; exact List.mem_append_left _ hq)
      rw [if_pos hsucc]
      have hsucc' : (mkdirList fs (prefixes d)).2 = true := hsucc
      refine ih (runOp fs (Op.mkdir d)).1 (prefixes d ++ avail) ?_ ?_ ?_ ?_ ?_ ?_
      · intro r
        show (mkdirList fs (prefixes d)).1.ro r = false
        rw [congrFun (mkdirList_ro fs (prefixes d)) r]; exact hro r
      · intro q hq
        rcases List.mem_append.mp hq with h1 | h1
        · exact mkdirList_all hsucc' q h1
        · exact runOp_mono _ (havail q h1)
      · exact hwf
      · intro q hq
        show (mkdirList fs (prefixes d)).1.content q = none
        rw [congrFun (mkdirList_content fs (prefixes d)) q]
        exact hdir q
          (by rw [dirPrefixes_cons_mkdir]; exact List.mem_append_right _ hq)
      · intro p hp
        have hp' : p ∈ fileTargets (Op.mkdir d :: rest) := by
          rw [fileTargets_cons_mkdir]; exact hp
        have hnot : p ∉ prefixes d := by
          intro hc
          exact hdisj p hp'
            (by rw [dirPrefixes_cons_mkdir]; exact List.mem_append_left _ hc)
        show (mkdirList fs (prefixes d)).1.isDir p = false
        rw [mkdirList_frame hnot]
        exact hfile p hp'
      · intro p hp hc
        exact hdisj p (by rw [fileTargets_cons_mkdir]; exact hp)
          (by rw [dirPrefixes_cons_mkdir]; exact List.mem_append_right _ hc)
    | mkfile p c =>
      rw [runOps_cons]
      have hwf1 : (avail.contains (parent p) || (parent p).isEmpty) = true ∧
          wfFrom avail rest = true := by
        have h0 := hwf
        simp only [wfFrom, Bool.and_eq_true] at h0
        exact h0
      have hpfile : p ∈ fileTargets (Op.mkfile p c :: rest) := by
        rw [fileTargets_cons_mkfile]; exact List.mem_cons_self p _
      have hpar : isDirR fs (parent p) = true := by
        unfold isDirR
        rcases Bool.or_eq_true_iff.mp hwf1.1 with hmem | hemp
        · have hm : parent p ∈ avail := by
            simpa using hmem
          rw [havail _ hm, Bool.or_true]
        · rw [hemp, Bool.true_or]
      have hsucc : (runOp fs (Op.mkfile p c)).2 = true := by
        show (createFile fs p c).2 = true
        rw [createFile_ok c hpar (hfile p hpfile) (hro (parent p))]
      rw [if_pos hsucc]
      refine ih (runOp fs (Op.mkfile p c)).1 avail ?_ ?_ ?_ ?_ ?_ ?_
      · intro r
        show (createFile fs p c).1.ro r = false
        rw [congrFun (createFile_ro fs p c) r]; exact hro r
      · intro q hq
        show (createFile fs p c).1.isDir q = true
        rw [congrFun (createFile_isDir fs p c) q]; exact havail q hq
      · exact hwf1.2
      · intro q hq
        have hne : q ≠ p := by
          intro he; subst he
          exact hdisj q hpfile (by rw [dirPrefixes_cons_mkfile]; exact hq)
        show (createFile fs p c).1.content q = none
        rw [createFile_frame c hne]
        exact hdir q (by rw [dirPrefixes_cons_mkfile]; exact hq)
      · intro r hr
        show (createFile fs p c).1.isDir r = false
        rw [congrFun (createFile_isDir fs p c) r]
        exact hfile r
          (by rw [fileTargets_cons_mkfile]; exact List.mem_cons_of_mem _ hr)
      · intro r hr hc2
        exact hdisj r
          (by rw [fileTargets_cons_mkfile]; exact List.mem_cons_of_mem _ hr)
          (by rw [dirPrefixes_cons_mkfile]; exact hc2)

/-! ### After a successful run, the declared tree is present -/

theorem runOps_dirs {ops : List Op} : ∀ {fs : FS},
    (runOps fs ops).2 = true →
    ∀ q ∈ dirPrefixes ops, (runOps fs ops).1.isDir q = true := by
  induction ops with
  | nil => intro fs _ q hq; cases hq
  | cons o rest ih =>
    intro fs h q hq
    by_cases hs : (runOp fs o).2 = true
    · have h1 : runOps fs (o :: rest) = runOps (runOp fs o).1 rest := by
        rw [runOps_cons, if_pos hs]
      rw [h1] at h ⊢
      cases o with
      | mkdir d =>
        rw [dirPrefixes_cons_mkdir] at hq
        rcases List.mem_append.mp hq with h2 | h2
        · have hs' : (mkdirList fs (prefixes d)).2 = true := hs
          exact runOps_mono rest (mkdirList_all hs' q h2)
        · exact ih h q h2
      | mkfile pp cc =>
        rw [dirPrefixes_cons_mkfile] at hq
        exact ih h q hq
    · have h1 : runOps fs (o :: rest) = ((runOp fs o).1, false) := by
        rw [runOps_cons, if_neg hs]
      rw [h1] at h
      simp at h

theorem runOps_files {ops : List Op} : ∀ {fs : FS},
    allEmpty ops = true →
    (runOps fs ops).2 = true →
    ∀ p ∈ fileTargets ops, (runOps fs ops).1.content p = some "" := by
  induction ops with
  | nil => intro fs _ _ p hp; cases hp
  | cons o rest ih =>
    intro fs hA h p hp
    have hArest : allEmpty rest = true := by
      simp only [allEmpty, List.all_cons, Bool.and_eq_true] at hA ⊢
      exact hA.2
    by_cases hs : (runOp fs o).2 = true
    · have h1 : runOps fs (o :: rest) = runOps (runOp fs o).1 rest := by
        rw [runOps_cons, if_pos hs]
      rw [h1] at h ⊢
      cases o with
      | mkdir d =>
        rw [fileTargets_cons_mkdir] at hp
        exact ih hArest h p hp
      | mkfile q c =>
        have hc : c = "" := by
          simp only [allEmpty, List.all_cons, Bool.and_eq_true] at hA
          have h0 := hA.1
          simpa using h0
        subst hc
        rw [fileTargets_cons_mkfile] at hp
        rcases List.mem_cons.mp hp with h2 | h2
        · subst h2
          have hs' : (createFile fs p "").2 = true := hs
          exact runOps_keep_empty hArest (createFile_succ_content hs')
        · exact ih hArest h p h2
    · have h1 : runOps fs (o :: rest) = ((runOp fs o).1, false) := by
        rw [runOps_cons, if_neg hs]
      rw [h1] at h
      simp at h

/-! ### Once an operation fails, nothing after it runs -/

theorem runOps_append_fail {fs : FS} {ops1 : List Op} (ops2 : List Op)
    (h : (runOps fs ops1).2 = false) :
    runOps fs (ops1 ++ ops2) = runOps fs ops1 := by
  induction ops1 generalizing fs with
  | nil => exact Bool.noConfusion h
  | cons o rest ih =>
    rw [List.cons_append, runOps_cons, runOps_cons]
    by_cases hs : (runOp fs o).2 = true
    · rw [if_pos hs, if_pos hs]
      refine ih ?_
      have h1 : runOps fs (o :: rest) = runOps (runOp fs o).1 rest := by
        rw [runOps_cons, if_pos hs]
      rw [h1] at h
      exact h
    · rw [if_neg hs, if_neg hs]

/-! ### The execution relation is deterministic and total -/

theorem Exec_det {fs : FS} {S : List Stmt} {r1 r2 : RunResult}
    (h1 : Exec fs S r1) (h2 : Exec fs S r2) : r1 = r2 := by
  induction h1 generalizing r2 with
  | done fs => cases h2; rfl
  | msg fs s rest r h ih =>
    cases h2 with
    | msg _ _ _ r' h' => rw [ih h']
  | step fs o rest fs' r hop h ih =>
    cases h2 with
    | step _ _ _ fs'' r' hop' h' =>
      rw [hop] at hop'
      injection hop' with e1 _
      subst e1
      exact ih h'
    | halt _ _ _ fs'' hop' =>
      rw [hop] at hop'
      injection hop' with _ e2
      exact Bool.noConfusion e2
  | halt fs o rest fs' hop =>
    cases h2 with
    | step _ _ _ fs'' r' hop' _ =>
      rw [hop] at hop'
      injection hop' with _ e2
      exact Bool.noConfusion e2
    | halt _ _ _ fs'' hop' =>
      rw [hop] at hop'
      injection hop' with e1 _
      rw [e1]

theorem Exec_runScript (S : List Stmt) : ∀ fs : FS, Exec fs S (runScript fs S) := by
  induction S with
  | nil => exact fun fs => .done fs
  | cons s rest ih =>
    intro fs
    cases s with
    | print m =>
      show Exec fs (.print m :: rest)
        ⟨(runScript fs rest).fs, m :: (runScript fs rest).out,
          (runScript fs rest).ok⟩
      exact .msg fs m rest _ (ih fs)
    | op o =>
      cases hro : runOp fs o with
      | mk fs' b =>
        cases b with
        | true =>
          have he : runScript fs (.op o :: rest) = runScript fs' rest := by
            rw [runScript_cons_op, hro]
            rfl
          rw [he]
          exact .step fs o rest fs' _ hro (ih fs')
        | false =>
          have he : runScript fs (.op o :: rest) = ⟨fs', [], false⟩ := by
            rw [runScript_cons_op, hro]
            rfl
          rw [he]
          exact .halt fs o rest fs' hro

/-! ### Projections of a whole script run -/

theorem runScript_fs_eq (fs : FS) (ops : List Op) (m : String) :
    (runScript fs (ops.map Stmt.op ++ [Stmt.print m])).fs = (runOps fs ops).1 := by
  rw [runScript_eq]

theorem runScript_ok_eq (fs : FS) (ops : List Op) (m : String) :
    (runScript fs (ops.map Stmt.op ++ [Stmt.print m])).ok = (runOps fs ops).2 := by
  rw [runScript_eq]

theorem runScript_out_eq (fs : FS) (ops : List Op) (m : String) :
    (runScript fs (ops.map Stmt.op ++ [Stmt.print m])).out =
      if (runOps fs ops).2 then [m] else [] := by
  rw [runScript_eq]

theorem scriptReplay (ops : List Op) (m : String)
    (hA : allEmpty ops = true) (fs : FS) :
    runScript (runScript fs (ops.map Stmt.op ++ [Stmt.print m])).fs
        (ops.map Stmt.op ++ [Stmt.print m]) =
      runScript fs (ops.map Stmt.op ++ [Stmt.print m]) := by
  rw [runScript_fs_eq fs ops m, runScript_eq, runScript_eq,
    runOps_replay hA fs]

theorem scriptOut (fs : FS) (ops : List Op) (m : String) :
    ((runScript fs (ops.map Stmt.op ++ [Stmt.print m])).ok = true →
      (runScript fs (ops.map Stmt.op ++ [Stmt.print m])).out = [m]) ∧
    ((runScript fs (ops.map Stmt.op ++ [Stmt.print m])).ok = false →
      (runScript fs (ops.map Stmt.op ++ [Stmt.print m])).out = []) := by
  rw [runScript_ok_eq, runScript_out_eq]
  cases hs : (runOps fs ops).2 with
  | true => simp
  | false => simp

/-! ### The claims -/

/-- Claim C1: with full write permission (no read-only directory anywhere)
and no pre-existing entry colliding with the declared tree (no file sits
at a declared directory path, no directory sits at a declared file path),
each scaffolder run completes, every directory declared in the hardcoded
tree exists afterwards, and every declared file exists with exactly its
declared (empty) content — zero missing entries. -/
theorem claim1_full_tree (fs : FS)
    (hro : ∀ p, fs.ro p = false)
    (hdirO : ∀ q ∈ dirPrefixes oauthOps, fs.content q = none)
    (hfileO : ∀ p ∈ fileTargets oauthOps, fs.isDir p = false)
    (hdirP : ∀ q ∈ dirPrefixes pluginOps, fs.content q = none)
    (hfileP : ∀ p ∈ fileTargets pluginOps, fs.isDir p = false) :
    ((runScript fs oauthScript).ok = true ∧
      (∀ q ∈ dirPrefixes oauthOps,
        (runScript fs oauthScript).fs.isDir q = true) ∧
      (∀ p ∈ fileTargets oauthOps,
        (runScript fs oauthScript).fs.content p = some "")) ∧
    ((runScript fs pluginScript).ok = true ∧
      (∀ q ∈ dirPrefixes pluginOps,
        (runScript fs pluginScript).fs.isDir q = true) ∧
      (∀ p ∈ fileTargets pluginOps,
        (runScript fs pluginScript).fs.content p = some "")) := by
  have hO : (runOps fs oauthOps).2 = true :=
    runOps_ok oauthOps fs [] hro
      (fun q hq => absurd hq (List.not_mem_nil q)) (by decide) hdirO hfileO
      (by decide)
  have hP : (runOps fs pluginOps).2 = true :=
    runOps_ok pluginOps fs [] hro
      (fun q hq => absurd hq (List.not_mem_nil q)) (by decide) hdirP hfileP
      (by decide)
  have hfsO : (runScript fs oauthScript).fs = (runOps fs oauthOps).1 :=
    runScript_fs_eq fs oauthOps oauthMsg
  have hokO : (runScript fs oauthScript).ok = (runOps fs oauthOps).2 :=
    runScript_ok_eq fs oauthOps oauthMsg
  have hfsP : (runScript fs pluginScript).fs = (runOps fs pluginOps).1 :=
    runScript_fs_eq fs pluginOps pluginMsg
  have hokP : (runScript fs pluginScript).ok = (runOps fs pluginOps).2 :=
    runScript_ok_eq fs pluginOps pluginMsg
  refine ⟨⟨?_, ?_, ?_⟩, ?_, ?_, ?_⟩
  · rw [hokO]; exact hO
  · intro q hq; rw [hfsO]; exact runOps_dirs hO q hq
  · intro p hp; rw [hfsO]; exact runOps_files (by decide) hO p hp
  · rw [hokP]; exact hP
  · intro q hq; rw [hfsP]; exact runOps_dirs hP q hq
  · intro p hp; rw [hfsP]; exact runOps_files (by decide) hP p hp

/-- Witness for C1 at the empty filesystem. -/
theorem claim1_full_tree_witness :
    (runScript fsEmpty oauthScript).ok = true ∧
    (runScript fsEmpty pluginScript).ok = true := by
  have h := claim1_full_tree fsEmpty (fun _ => rfl)
    (by decide) (by decide) (by decide) (by decide)
  exact ⟨h.1.1, h.2.1⟩

/-- Counterexample to C2 as stated: in `fsOneBlocked` exactly one
operation of `p.py` fails (the write of `AnalyticsDashboard.tsx` inside
the read-only `src/components`; the eight operations before it succeed
and nothing after it runs).  The claim promises the failure is caught and
logged and the remaining files still appear; in fact the remaining
declared files are missing and the output is empty. -/
theorem claim2_cex :
    (runOps fsOneBlocked (pluginOps.take 8)).2 = true ∧
    (runOps fsOneBlocked (pluginOps.take 9)).2 = false ∧
    (runScript fsOneBlocked pluginScript).fs.content
      (pluginBase ++ ["package.json"]) = some "" ∧
    (runScript fsOneBlocked pluginScript).fs.content
      (pluginBase ++ ["src", "components", "AnalyticsSettings.tsx"]) = none ∧
    (runScript fsOneBlocked pluginScript).fs.content
      (pluginBase ++ ["src", "types", "analytics.ts"]) = none ∧
    (runScript fsOneBlocked pluginScript).out = [] ∧
    (runScript fsOneBlocked pluginScript).ok = false := by decide

/-- Claim C2 amended: the scripts contain no error handling, so one
failing operation does prevent creation of the rest of the tree — once
the operation list reaches a failure, appending further operations
changes nothing, and the script ends with the partial state, no output
and an uncaught error. -/
theorem claim2_abort (fs : FS) (ops1 ops2 : List Op) (m : String)
    (h : (runOps fs ops1).2 = false) :
    runOps fs (ops1 ++ ops2) = runOps fs ops1 ∧
    runScript fs ((ops1 ++ ops2).map Stmt.op ++ [Stmt.print m]) =
      ⟨(runOps fs ops1).1, [], false⟩ := by
  have h1 := runOps_append_fail ops2 h
  refine ⟨h1, ?_⟩
  rw [runScript_eq, h1, h]
  rfl

/-- Witness for the amended C2 on the concrete blocked run of `p.py`. -/
theorem claim2_abort_witness :
    runOps fsOneBlocked (pluginOps.take 9 ++ pluginOps.drop 9) =
      runOps fsOneBlocked (pluginOps.take 9) ∧
    runScript fsOneBlocked
        ((pluginOps.take 9 ++ pluginOps.drop 9).map Stmt.op ++
          [Stmt.print pluginMsg]) =
      ⟨(runOps fsOneBlocked (pluginOps.take 9)).1, [], false⟩ :=
  claim2_abort fsOneBlocked (pluginOps.take 9) (pluginOps.drop 9) pluginMsg
    (by decide)

/-- Claim C3: running either script twice from any starting filesystem
gives exactly the run of running it once — existing directories are
accepted silently and existing files are truncated back to their declared
content, so the final state (and even the output and success flag of the
second run) coincide with the first run's. -/
theorem claim3_idempotent (fs : FS) :
    runScript (runScript fs oauthScript).fs oauthScript =
      runScript fs oauthScript ∧
    runScript (runScript fs pluginScript).fs pluginScript =
      runScript fs pluginScript :=
  ⟨scriptReplay oauthOps oauthMsg (by decide) fs,
   scriptReplay pluginOps pluginMsg (by decide) fs⟩

/-- Counterexample to C4 as stated: with a plain file named `apps` in the
working directory, the run of `oauth.py` fails and ends with NO console
message at all — there is no failure summary. -/
theorem claim4_cex :
    (runScript fsFileApps oauthScript).ok = false ∧
    (runScript fsFileApps oauthScript).out = [] := by decide

/-- Claim C4 amended: a final message is printed exactly on full success —
an error-free run ends with the aggregate success message, while a run
with an error aborts and prints nothing (no per-item error, no summary). -/
theorem claim4_final_message (fs : FS) :
    ((runScript fs oauthScript).ok = true →
      (runScript fs oauthScript).out = [oauthMsg]) ∧
    ((runScript fs oauthScript).ok = false →
      (runScript fs oauthScript).out = []) ∧
    ((runScript fs pluginScript).ok = true →
      (runScript fs pluginScript).out = [pluginMsg]) ∧
    ((runScript fs pluginScript).ok = false →
      (runScript fs pluginScript).out = []) := by
  have hO := scriptOut fs oauthOps oauthMsg
  have hP := scriptOut fs pluginOps pluginMsg
  exact ⟨hO.1, hO.2, hP.1, hP.2⟩

/-- Witness for the amended C4: the successful runs from the empty
filesystem print exactly their success message. -/
theorem claim4_final_message_witness :
    (runScript fsEmpty oauthScript).out = [oauthMsg] ∧
    (runScript fsEmpty pluginScript).out = [pluginMsg] :=
  ⟨(claim4_final_message fsEmpty).1 (by decide),
   (claim4_final_message fsEmpty).2.2.1 (by decide)⟩

/-- Counterexample to C5 as stated: with the working directory read-only,
both runs fail, but nothing is logged for any attempt and no final
failure indication is printed — the output is empty. -/
theorem claim5_cex :
    (runScript fsRoRoot oauthScript).ok = false ∧
    (runScript fsRoRoot oauthScript).out = [] ∧
    (runScript fsRoRoot pluginScript).ok = false ∧
    (runScript fsRoRoot pluginScript).out = [] := by decide

/-- Claim C5 amended: when the process lacks write permission at the base
location, only the FIRST creation attempt is made; it fails, the script
aborts with an uncaught exception, nothing is logged, no final message is
printed, and the filesystem is left completely unchanged. -/
theorem claim5_unwritable (fs : FS)
    (h1 : fs.ro [] = true)
    (h2 : fs.isDir ["apps"] = false) (h3 : fs.content ["apps"] = none)
    (h4 : fs.isDir ["plugins"] = false)
    (h5 : fs.content ["plugins"] = none) :
    runScript fs oauthScript = ⟨fs, [], false⟩ ∧
    runScript fs pluginScript = ⟨fs, [], false⟩ := by
  have hstepA : mkdirOne fs ["apps"] = (fs, false) := by
    unfold mkdirOne
    rw [show parent ["apps"] = ([] : Path) from rfl]
    simp [h1, h2, h3]
  have hstepP : mkdirOne fs ["plugins"] = (fs, false) := by
    unfold mkdirOne
    rw [show parent ["plugins"] = ([] : Path) from rfl]
    simp [h1, h4, h5]
  have hopA : runOp fs (Op.mkdir oauthBase) = (fs, false) := by
    show mkdirList fs (prefixes oauthBase) = (fs, false)
    rw [show prefixes oauthBase =
      ["apps"] :: [["apps", "web"], ["apps", "web", "modules"], oauthBase]
      from rfl]
    rw [mkdirList_cons, hstepA]
    rfl
  have hopP : runOp fs (Op.mkdir pluginBase) = (fs, false) := by
    show mkdirList fs (prefixes pluginBase) = (fs, false)
    rw [show prefixes pluginBase = ["plugins"] :: [pluginBase] from rfl]
    rw [mkdirList_cons, hstepP]
    rfl
  have hopsA : runOps fs oauthOps = (fs, false) := by
    rw [show oauthOps = Op.mkdir oauthBase :: oauthOps.tail from rfl]
    rw [runOps_cons, hopA]
    rfl
  have hopsP : runOps fs pluginOps = (fs, false) := by
    rw [show pluginOps = Op.mkdir pluginBase :: pluginOps.tail from rfl]
    rw [runOps_cons, hopP]
    rfl
  constructor
  · have he := runScript_eq fs oauthOps oauthMsg
    rw [show oauthScript = oauthOps.map Stmt.op ++ [Stmt.print oauthMsg]
      from rfl, he, hopsA]
    rfl
  · have he := runScript_eq fs pluginOps pluginMsg
    rw [show pluginScript = pluginOps.map Stmt.op ++ [Stmt.print pluginMsg]
      from rfl, he, hopsP]
    rfl

/-- Witness for the amended C5 at a concrete read-only root. -/
theorem claim5_unwritable_witness :
    runScript fsRoRoot oauthScript = ⟨fsRoRoot, [], false⟩ ∧
    runScript fsRoRoot pluginScript = ⟨fsRoRoot, [], false⟩ :=
  claim5_unwritable fsRoRoot rfl rfl rfl rfl rfl

/-- Counterexample to C6 as stated: at `fsDirReadme` the declared path of
`README.md` is itself an existing directory; its parent exists and is
writable, yet `open(..., 'w')` fails and afterwards no file with the
given content exists at that path. -/
theorem claim6_cex :
    isDirR fsDirReadme (parent (oauthBase ++ ["README.md"])) = true ∧
    fsDirReadme.ro (parent (oauthBase ++ ["README.md"])) = false ∧
    (createFile fsDirReadme (oauthBase ++ ["README.md"]) "").2 = false ∧
    (createFile fsDirReadme (oauthBase ++ ["README.md"]) "").1.content
      (oauthBase ++ ["README.md"]) = none := by decide

/-- Claim C6 amended: for every path whose parent directory exists and is
writable AND that is not itself an existing directory, file creation
succeeds and afterwards the file holds exactly the given content,
regardless of what it contained before. -/
theorem claim6_create_file (fs : FS) (p : Path) (c : String)
    (h1 : isDirR fs (parent p) = true) (h2 : fs.ro (parent p) = false)
    (h3 : fs.isDir p = false) :
    (createFile fs p c).2 = true ∧
    (createFile fs p c).1.content p = some c := by
  rw [createFile_ok c h1 h3 h2]
  exact ⟨rfl, by simp⟩

/-- Witness for the amended C6 on a concrete write into the root. -/
theorem claim6_create_file_witness :
    (createFile fsEmpty ["notes.txt"] "hello").2 = true ∧
    (createFile fsEmpty ["notes.txt"] "hello").1.content ["notes.txt"] =
      some "hello" :=
  claim6_create_file fsEmpty ["notes.txt"] "hello" (by decide) (by decide)
    (by decide)

/-- Claim C7: directory creation makes the directory and all missing
ancestors (given that no prefix is blocked by an existing file or by a
missing write permission), and when the directory chain already exists it
succeeds silently, leaving the filesystem exactly unchanged. -/
theorem claim7_ensure_directory (fs : FS) (p : Path)
    (hro : ∀ q, fs.ro q = false)
    (hnc : ∀ q ∈ prefixes p, fs.isDir q = false → fs.content q = none) :
    ((makedirs fs p).2 = true ∧
      ∀ q ∈ prefixes p, (makedirs fs p).1.isDir q = true) ∧
    ((∀ q ∈ prefixes p, fs.isDir q = true) → makedirs fs p = (fs, true)) := by
  have hs : (mkdirList fs (prefixes p)).2 = true := by
    refine mkdirList_succ fun q hq => ?_
    by_cases hd : fs.isDir q = true
    · exact Or.inl hd
    · have hd' : fs.isDir q = false := by
        cases hb : fs.isDir q
        · rfl
        · exact absurd hb hd
      exact Or.inr ⟨hnc q hq hd', hro (parent q)⟩
  exact ⟨⟨hs, mkdirList_all hs⟩, fun hall => mkdirList_id hall⟩

/-- Witness for C7 creating a two-level directory from nothing. -/
theorem claim7_ensure_directory_witness :
    (makedirs fsEmpty ["a", "b"]).2 = true ∧
    (makedirs fsEmpty ["a", "b"]).1.isDir ["a", "b"] = true := by
  have h := claim7_ensure_directory fsEmpty ["a", "b"] (fun _ => rfl)
    (by decide)
  exact ⟨h.1.1, h.1.2 ["a", "b"] (by decide)⟩

/-- Claim C8: in both scripts, every file write comes after the
directory-creation call that covers its parent directory: the traversal
creates each directory before any of its children are written. -/
theorem claim8_dirs_before_files :
    filesAfterDirs oauthOps = true ∧ filesAfterDirs pluginOps = true := by
  decide

/-- Counterexample to C9 as stated: starting from an empty filesystem,
`oauth.py` creates the directory `apps`, which is an ancestor of the base
path and not one of the hardcoded entries under it — so a path outside
the declared tree does change. -/
theorem claim9_cex :
    fsEmpty.isDir ["apps"] = false ∧
    (runScript fsEmpty oauthScript).fs.isDir ["apps"] = true ∧
    ["apps"] ∉ opTargets oauthOps := by decide

/-- Claim C9 amended: neither script deletes, renames or modifies
anything outside the declared tree AND its ancestor chain — every path
that no operation touches (neither a prefix of a `mkdir` target nor a
file target) keeps its kind, its content and its permission bit
unchanged. -/
theorem claim9_frame (fs : FS) (p : Path)
    (h1 : p ∉ touched oauthOps) (h2 : p ∉ touched pluginOps) :
    ((runScript fs oauthScript).fs.isDir p = fs.isDir p ∧
      (runScript fs oauthScript).fs.content p = fs.content p ∧
      (runScript fs oauthScript).fs.ro p = fs.ro p) ∧
    ((runScript fs pluginScript).fs.isDir p = fs.isDir p ∧
      (runScript fs pluginScript).fs.content p = fs.content p ∧
      (runScript fs pluginScript).fs.ro p = fs.ro p) := by
  have h1d : p ∉ dirPrefixes oauthOps := fun hc =>
    h1 (List.mem_append_left _ hc)
  have h1f : p ∉ fileTargets oauthOps := fun hc =>
    h1 (List.mem_append_right _ hc)
  have h2d : p ∉ dirPrefixes pluginOps := fun hc =>
    h2 (List.mem_append_left _ hc)
  have h2f : p ∉ fileTargets pluginOps := fun hc =>
    h2 (List.mem_append_right _ hc)
  have hfsO : (runScript fs oauthScript).fs = (runOps fs oauthOps).1 :=
    runScript_fs_eq fs oauthOps oauthMsg
  have hfsP : (runScript fs pluginScript).fs = (runOps fs pluginOps).1 :=
    runScript_fs_eq fs pluginOps pluginMsg
  rw [hfsO, hfsP]
  exact ⟨⟨runOps_isDir_frame h1d, runOps_content_frame h1f,
      congrFun (runOps_ro fs oauthOps) p⟩,
    ⟨runOps_isDir_frame h2d, runOps_content_frame h2f,
      congrFun (runOps_ro fs pluginOps) p⟩⟩

/-- Witness for the amended C9 at a concrete untouched path. -/
theorem claim9_frame_witness :
    ((runScript fsEmpty oauthScript).fs.isDir ["etc"] = fsEmpty.isDir ["etc"] ∧
      (runScript fsEmpty oauthScript).fs.content ["etc"] =
        fsEmpty.content ["etc"] ∧
      (runScript fsEmpty oauthScript).fs.ro ["etc"] = fsEmpty.ro ["etc"]) ∧
    ((runScript fsEmpty pluginScript).fs.isDir ["etc"] =
        fsEmpty.isDir ["etc"] ∧
      (runScript fsEmpty pluginScript).fs.content ["etc"] =
        fsEmpty.content ["etc"] ∧
      (runScript fsEmpty pluginScript).fs.ro ["etc"] = fsEmpty.ro ["etc"]) :=
  claim9_frame fsEmpty ["etc"] (by decide) (by decide)

/-- Claim C10: each script is deterministic — any two executions from the
same starting filesystem reach the same final filesystem and print the
same console output. -/
theorem claim10_deterministic (fs : FS) (r1 r2 s1 s2 : RunResult)
    (h1 : Exec fs oauthScript r1) (h2 : Exec fs oauthScript r2)
    (h3 : Exec fs pluginScript s1) (h4 : Exec fs pluginScript s2) :
    (r1.fs = r2.fs ∧ r1.out = r2.out) ∧
    (s1.fs = s2.fs ∧ s1.out = s2.out) := by
  have e1 := Exec_det h1 h2
  have e2 := Exec_det h3 h4
  exact ⟨⟨congrArg RunResult.fs e1, congrArg RunResult.out e1⟩,
    ⟨congrArg RunResult.fs e2, congrArg RunResult.out e2⟩⟩

/-- Witness for C10 on two executions from the empty filesystem. -/
theorem claim10_deterministic_witness :
    (((runScript fsEmpty oauthScript).fs = (runScript fsEmpty oauthScript).fs ∧
      (runScript fsEmpty oauthScript).out =
        (runScript fsEmpty oauthScript).out) ∧
    ((runScript fsEmpty pluginScript).fs = (runScript fsEmpty pluginScript).fs ∧
      (runScript fsEmpty pluginScript).out =
        (runScript fsEmpty pluginScript).out)) :=
  claim10_deterministic fsEmpty _ _ _ _
    (Exec_runScript oauthScript fsEmpty) (Exec_runScript oauthScript fsEmpty)
    (Exec_runScript pluginScript fsEmpty) (Exec_runScript pluginScript fsEmpty)

end Scaffold
